import Mathlib

/-!
Verification development for the augmentation-divide analysis pipeline.

The definitions below are a shallow embedding of the parts of the repository
that the verified properties are about:

* `scripts/03_layer3_community_notes.py`: the streaming event aggregator
  `compute_monthly_metrics` (chunked ingestion of note rows, incremental
  per-month / per-language / per-subject aggregation, snowflake-id decoding
  `_tweet_id_to_timestamp_ms`, finalization into the monthly table, the global
  totals and the language table), and the pre/post split of
  `summarize_pre_post`.
* `scripts/06_robustness_checks.py`: `placebo_test` (pre/post partition at a
  breakpoint, median-shift effect, Mann-Whitney rank statistic, and the
  segmented-regression helper `_fit_segmented`) and the strongest-effect
  booleans computed by `run_robustness`.

Modelling conventions:
* pandas timestamps are modelled as integers (milliseconds since the Unix
  epoch); the `to_datetime(..., errors="coerce")` parse of the combined
  date/time strings is modelled by an `Option Int` field on the raw row
  (`none` = unparsable or missing), since the claims depend only on parse
  success and the resulting instant.
* `to_period("M")` is modelled by `monthKey`, a civil-calendar year-month
  index computed from the millisecond timestamp.
* float arithmetic is modelled exactly over `ℚ`; `NaN` / missing statistics
  are modelled as `Option` `none`.  The p-value transforms (normal CDF of the
  Mann-Whitney statistic, HAC t-statistics) are transcendental float
  computations that no verified property depends on; the rank statistic
  itself and the regression coefficients are modelled exactly.
* batched pandas chunk updates (`value_counts` sums, `groupby` set unions,
  `groupby ... min` merges) are modelled by folding the equivalent per-row
  update over the rows of the chunk, which produces the identical dictionary
  state.
* dictionary/table orderings that pandas leaves unspecified (tie order of
  unstable `sort_values`, dict insertion order) are canonicalized by sorting
  on the key.
-/

namespace AugDiv

/-- Civil-calendar (proleptic Gregorian) year and month of a day count since
1970-01-01, following the standard days-to-civil algorithm; this models the
year-month extraction performed by pandas `to_period("M")`. -/
def civilYM (z : Int) : Int × Int :=
  let z' := z + 719468
  let era := z'.fdiv 146097
  let doe := z' - era * 146097
  let yoe := (doe - doe.fdiv 1460 + doe.fdiv 36524 - doe.fdiv 146096).fdiv 365
  let y := yoe + era * 400
  let doy := doe - (365 * yoe + yoe.fdiv 4 - yoe.fdiv 100)
  let mp := (5 * doy + 2).fdiv 153
  let m := mp + (if mp < 10 then 3 else -9)
  (if m ≤ 2 then y + 1 else y, m)

/-- Year-month index (`12 * year + (month - 1)`) of a UTC instant given in
milliseconds since the Unix epoch: the embedding of
`note_ts.dt.tz_convert(None).dt.to_period("M")`. -/
def monthKey (ms : Int) : Int :=
  let ym := civilYM (ms.fdiv 86400000)
  12 * ym.1 + (ym.2 - 1)

/-- Twitter/X snowflake epoch in milliseconds (`TWITTER_EPOCH_MS`). -/
def TWITTER_EPOCH_MS : Int := 1288834974657

/-- Reinterpretation of an int64-stored value as uint64
(`ids.astype("uint64")`): reduction modulo `2 ^ 64` into `[0, 2 ^ 64)`. -/
def toUInt64Val (x : Int) : Int := x % (2 : Int) ^ 64

/-- Reinterpretation of a uint64 value in `[0, 2 ^ 64)` as int64
(`.astype("int64")`): values at or above `2 ^ 63` wrap to negatives. -/
def asInt64 (v : Int) : Int := if v < (2 : Int) ^ 63 then v else v - (2 : Int) ^ 64

/-- Embedding of `_tweet_id_to_timestamp_ms`: reinterpret the id as uint64,
logically right-shift by 22 bits (floor-division by `2 ^ 22` on the
non-negative reinterpretation, hence no sign extension), reinterpret as int64
and add the snowflake epoch. -/
def tweetIdToTimestampMs (tid : Int) : Int :=
  asInt64 (toUInt64Val tid / (2 : Int) ^ 22) + TWITTER_EPOCH_MS

/-- One raw event row of `notes_with_lang.csv` as read by
`compute_monthly_metrics`, restricted to the columns it uses (`usecols`).
`ts` is the result of parsing the combined `date` / `Timestamp` columns
(`none` when the parse fails or a component is missing), `author` is
`noteAuthorParticipantId`, `tweetId` the subject id, `lang` the language
code (`none` when blank). -/
structure Row where
  ts : Option Int
  author : Option String
  tweetId : Option Int
  lang : Option String
deriving DecidableEq

/-- A row survives `chunk.dropna(subset=["note_ts", "noteAuthorParticipantId",
"tweetId"])` exactly when all three of these fields are present. -/
def validRow (r : Row) : Bool :=
  r.ts.isSome && r.author.isSome && r.tweetId.isSome

/-- The accumulator state of the streaming pass of `compute_monthly_metrics`:
the mutable dictionaries/sets/counters it maintains across chunks.
Dictionary key collections are kept as lists in first-insertion order
(Python dicts preserve insertion order); author sets are finite sets, since
only their cardinality is ever observed. -/
structure AggState where
  /-- `total_rows` -/
  totalRows : Nat
  /-- `dropped_rows` -/
  droppedRows : Nat
  /-- keys of `month_note_counts`, in insertion order -/
  months : List Int
  /-- `month_note_counts` -/
  monthCount : Int → Nat
  /-- `month_authors` -/
  monthAuthors : Int → Finset String
  /-- `all_authors` -/
  allAuthors : Finset String
  /-- keys of `lang_note_counts`, in insertion order -/
  langs : List String
  /-- `lang_note_counts` -/
  langCount : String → Nat
  /-- `lang_authors` -/
  langAuthors : String → Finset String
  /-- keys of `earliest_note_ms_by_tweet`, in insertion order -/
  tweets : List Int
  /-- `earliest_note_ms_by_tweet` (meaningful on `tweets`) -/
  earliest : Int → Int

/-- The empty accumulator state at the start of the pass. -/
def initState : AggState where
  totalRows := 0
  droppedRows := 0
  months := []
  monthCount := fun _ => 0
  monthAuthors := fun _ => ∅
  allAuthors := ∅
  langs := []
  langCount := fun _ => 0
  langAuthors := fun _ => ∅
  tweets := []
  earliest := fun _ => 0

/-- Recording a dictionary key: appended on first sight, in insertion
order. -/
def recordKey {α : Type} [DecidableEq α] (ks : List α) (a : α) : List α :=
  if a ∈ ks then ks else ks ++ [a]

/-- The per-retained-row state update of the chunk loop: language tally and
per-language author set, month count and per-month author set, global author
set, and the keep-the-earlier merge into `earliest_note_ms_by_tweet`
(`if prev is None or ms_int < prev`). -/
def processValid (s : AggState) (ts : Int) (author : String) (tid : Int)
    (lang : Option String) : AggState :=
  let lk := lang.getD "unk"
  let m := monthKey ts
  { s with
    months := recordKey s.months m
    monthCount := fun x => if x = m then s.monthCount x + 1 else s.monthCount x
    monthAuthors := fun x =>
      if x = m then insert author (s.monthAuthors x) else s.monthAuthors x
    allAuthors := insert author s.allAuthors
    langs := recordKey s.langs lk
    langCount := fun x => if x = lk then s.langCount x + 1 else s.langCount x
    langAuthors := fun x =>
      if x = lk then insert author (s.langAuthors x) else s.langAuthors x
    tweets := recordKey s.tweets tid
    earliest := fun x =>
      if x = tid then (if tid ∈ s.tweets then min (s.earliest tid) ts else ts)
      else s.earliest x }

/-- Processing one raw row: it is always counted in `total_rows`; a row
failing the `dropna` is counted in `dropped_rows` and contributes to nothing
else; a retained row is folded into every aggregate. -/
def processRow (s : AggState) (r : Row) : AggState :=
  let s' := { s with totalRows := s.totalRows + 1 }
  match r.ts, r.author, r.tweetId with
  | some ts, some a, some tid => processValid s' ts a tid r.lang
  | _, _, _ => { s' with droppedRows := s'.droppedRows + 1 }

/-- One iteration of the chunk loop: every batched pandas update of the loop
body is the fold of the corresponding per-row update over the chunk. -/
def processChunk (s : AggState) (c : List Row) : AggState :=
  c.foldl processRow s

/-- Chunk splitting, structurally recursive on a fuel bound (the fuel is
always instantiated with the stream length, which each step strictly
decreases, so the fuel-exhausted branch is unreachable). -/
def chunksOfAux (n : Nat) : Nat → List Row → List (List Row)
  | _, [] => []
  | 0, l => [l]
  | fuel + 1, x :: xs =>
    (x :: xs).take (max 1 n) :: chunksOfAux n fuel ((x :: xs).drop (max 1 n))

/-- Splitting the row stream into consecutive chunks of size `n`
(`pd.read_csv(..., chunksize=n)`; a chunk size below one is clamped, as the
reader only accepts positive chunk sizes). -/
def chunksOf (n : Nat) (l : List Row) : List (List Row) :=
  chunksOfAux n l.length l

/-- The accumulator state after the full chunked pass. -/
def computeAgg (cs : List (List Row)) : AggState :=
  cs.foldl processChunk initState

/-- The accumulator state produced by streaming `rows` with chunk size `n`. -/
def aggOf (rows : List Row) (n : Nat) : AggState :=
  computeAgg (chunksOf n rows)

/-- One row of the final monthly table (`monthly`). -/
structure MonthlyRow where
  month : Int
  /-- `Notes` -/
  notes : Nat
  /-- `Active_Authors` -/
  activeAuthors : Nat
  /-- `Notes_per_Author` (`NaN`, modelled as `none`, when the author count is
  zero, since `Notes / NaN` is `NaN` after `.replace({0: np.nan})`) -/
  notesPerAuthor : Option ℚ
  /-- `Median_TimeToFirstNote_hours` (`none` = missing after the left merge) -/
  medianTTFN : Option ℚ
deriving DecidableEq

instance : Inhabited MonthlyRow := ⟨⟨0, 0, 0, none, none⟩⟩

/-- The `totals` dict. -/
structure Totals where
  totalNotes : Nat
  totalContributors : Nat
  totalDistinctPosts : Nat
  droppedRows : Nat
deriving DecidableEq

/-- One row of the global language table (`lang_df`). -/
structure LangRow where
  language : String
  notes : Nat
  /-- `Notes_Share` (`NaN`, modelled as `none`, when `total_rows` is zero) -/
  notesShare : Option ℚ
  uniqueAuthors : Nat
deriving DecidableEq

/-- The three outputs of `compute_monthly_metrics`. -/
structure Output where
  monthly : List MonthlyRow
  totals : Totals
  langTable : List LangRow
deriving DecidableEq

/-- Inserting into a sorted list, after any elements it ties with. -/
def insertSorted {α : Type} (le : α → α → Bool) (a : α) : List α → List α
  | [] => [a]
  | x :: xs => if le x a then x :: insertSorted le a xs else a :: x :: xs

/-- Stable insertion sort (the sorts of the sources — Python `sorted`, the
pandas `sort_values` calls, the sort inside `median` — only ever feed
outputs whose tie order is either irrelevant or left unspecified by the
library, so a canonical stable sort models them). -/
def insertionSort {α : Type} (le : α → α → Bool) (l : List α) : List α :=
  l.foldl (fun acc x => insertSorted le x acc) []

/-- pandas `Series.median()` over exact rationals: `none` on the empty
series, the middle element of the sorted values for odd length, the mean of
the two middle elements for even length. -/
def medianQ (l : List ℚ) : Option ℚ :=
  if l = [] then none
  else
    let s := insertionSort (fun a b => a ≤ b) l
    let n := l.length
    if n % 2 = 1 then some (s.getD (n / 2) 0)
    else some ((s.getD (n / 2 - 1) 0 + s.getD (n / 2) 0) / 2)

/-- The months of the monthly table, ascending (`sorted(month_note_counts)`). -/
def monthsSorted (s : AggState) : List Int :=
  insertionSort (fun a b => a ≤ b) s.months

/-- The recorded subjects in dictionary order (`np.fromiter` over the keys
of `earliest_note_ms_by_tweet`; the order is irrelevant to every output, as
the deltas are grouped and medianed). -/
def tweetsIter (s : AggState) : List Int :=
  s.tweets

/-- `delta_hours`: earliest note timestamp minus the decoded tweet-creation
timestamp, in hours (`(first_note_ms - tweet_ms) / (1000 * 60 * 60)`). -/
def deltaHours (s : AggState) (tid : Int) : ℚ :=
  ((s.earliest tid - tweetIdToTimestampMs tid : Int) : ℚ) / 3600000

/-- The retained time-to-first-note entries `(month of first note, delta)`:
the filter `df_first[(notna) & (TimeToFirstNote_hours >= 0)]` keeps exactly
the non-negative deltas (the deltas are exact here, so none is unparsable),
with no upper bound. -/
def ttfnRetained (s : AggState) : List (Int × ℚ) :=
  ((tweetsIter s).map fun tid =>
      (monthKey (s.earliest tid), deltaHours s tid)).filter fun e => 0 ≤ e.2

/-- Per-month median of the retained deltas
(`df_first.groupby("Month")[...]. median()`, merged `how="left"`). -/
def monthMedian (s : AggState) (m : Int) : Option ℚ :=
  medianQ (((ttfnRetained s).filter fun e => e.1 = m).map Prod.snd)

/-- Assembling one row of the monthly table. -/
def mkMonthlyRow (s : AggState) (m : Int) : MonthlyRow :=
  let notes := s.monthCount m
  let act := (s.monthAuthors m).card
  { month := m
    notes := notes
    activeAuthors := act
    notesPerAuthor := if act = 0 then none else some ((notes : ℚ) / (act : ℚ))
    medianTTFN := monthMedian s m }

/-- Assembling one row of the language table. -/
def mkLangRow (s : AggState) (k : String) : LangRow :=
  { language := k
    notes := s.langCount k
    notesShare :=
      if s.totalRows = 0 then none
      else some ((s.langCount k : ℚ) / (s.totalRows : ℚ))
    uniqueAuthors := (s.langAuthors k).card }

/-- The language table rows before the final sort, in the dictionary
iteration order of `lang_note_counts`. -/
def langRowsRaw (s : AggState) : List LangRow :=
  s.langs.map (mkLangRow s)

/-- `lang_df.sort_values("Notes", ascending=False)`: descending by note
count (tie order, which pandas leaves unspecified, canonicalized as
stable). -/
def langTableOf (s : AggState) : List LangRow :=
  insertionSort (fun a b => b.notes ≤ a.notes) (langRowsRaw s)

/-- Finalization: the monthly table sorted by month, the `totals` dict, and
the language table. -/
def finalize (s : AggState) : Output :=
  { monthly := (monthsSorted s).map (mkMonthlyRow s)
    totals :=
      { totalNotes := s.totalRows
        totalContributors := s.allAuthors.card
        totalDistinctPosts := s.tweets.length
        droppedRows := s.droppedRows }
    langTable := langTableOf s }

/-- The whole of `compute_monthly_metrics`: stream `rows` in chunks of `n`
and finalize. -/
def computeMonthlyMetrics (rows : List Row) (n : Nat) : Output :=
  finalize (aggOf rows n)

/-!
Embedding of `scripts/06_robustness_checks.py`.  A time series is a list of
`(date, value)` pairs; dates are modelled as integer keys (year-month index,
`12 * year + (month - 1)`), since only their order matters to the code, and
values are exact rationals.  A missing value is modelled by the absence of
the row (matching the `.dropna()` calls, under which only non-null values
count as periods).
-/

/-- The "before" set of the pre/post comparator: rows strictly before the
cutover (`df[df['date'] < break_dt]` in `placebo_test`, and likewise
`monthly[monthly["MonthStart"] < CHATGPT_BREAK]` in `summarize_pre_post`). -/
def prePart (df : List (Int × ℚ)) (cut : Int) : List (Int × ℚ) :=
  df.filter fun p => p.1 < cut

/-- The "after" set: rows at or after the cutover
(`df[df['date'] >= break_dt]`; the boundary is inclusive on this side). -/
def postPart (df : List (Int × ℚ)) (cut : Int) : List (Int × ℚ) :=
  df.filter fun p => cut ≤ p.1

/-- The "before" values. -/
def preVals (df : List (Int × ℚ)) (cut : Int) : List ℚ :=
  (prePart df cut).map Prod.snd

/-- The "after" values. -/
def postVals (df : List (Int × ℚ)) (cut : Int) : List ℚ :=
  (postPart df cut).map Prod.snd

/-- `Series.median()` of a series known to be nonempty (every use site is
guarded by a length check). -/
def medOr0 (l : List ℚ) : ℚ :=
  (medianQ l).getD 0

/-- The Mann-Whitney U statistic of the first sample: concordant pairs plus
half the ties.  `scipy.stats.mannwhitneyu` turns this statistic into a
p-value through a (transcendental, floating-point) CDF, on which no verified
property depends; the statistic itself is exact. -/
def mannWhitneyU (pre post : List ℚ) : ℚ :=
  (pre.map fun x =>
    (post.map fun y =>
      if y < x then (1 : ℚ) else if x = y then 1 / 2 else 0).sum).sum

/-- The slope/level estimates returned by `_fit_segmented` (the HAC p-values
attached to them are floating-point CDF evaluations no verified property
depends on). -/
structure SegFit where
  nPre : Nat
  nPost : Nat
  slopePre : ℚ
  slopeChange : ℚ
  slopePost : ℚ
  levelChange : ℚ
deriving DecidableEq

/-- One row of the regression design `[const, time, post, time_post]`. -/
def xrow (t : ℚ) (p : Bool) : Fin 4 → ℚ := fun k =>
  if k = 0 then 1
  else if k = 1 then t
  else if k = 2 then (if p then 1 else 0)
  else (if p then t else 0)

/-- The design rows of `_fit_segmented`: sort by date, number the periods
`0, 1, ...` (`time`), flag the periods at or after the breakpoint (`post`),
and attach the response value. -/
def segData (df : List (Int × ℚ)) (brk : Int) : List ((Fin 4 → ℚ) × ℚ) :=
  ((insertionSort (fun a b => a.1 ≤ b.1) df).enum).map fun p =>
    (xrow (p.1 : ℚ) (decide (brk ≤ p.2.1)), p.2.2)

/-- Entry `(i, j)` of the normal-equations matrix `Xᵀ X`. -/
def normalMat (rs : List ((Fin 4 → ℚ) × ℚ)) (i j : Fin 4) : ℚ :=
  (rs.map fun r => r.1 i * r.1 j).sum

/-- Entry `i` of `Xᵀ y`. -/
def normalVec (rs : List ((Fin 4 → ℚ) × ℚ)) (i : Fin 4) : ℚ :=
  (rs.map fun r => r.1 i * r.2).sum

/-- 3x3 determinant, cofactor expansion. -/
def det3x3 (a b c d e f g h i : ℚ) : ℚ :=
  a * (e * i - f * h) - b * (d * i - f * g) + c * (d * h - e * g)

/-- 4x4 determinant, cofactor expansion along the first row. -/
def det4x4 (m : Fin 4 → Fin 4 → ℚ) : ℚ :=
  m 0 0 * det3x3 (m 1 1) (m 1 2) (m 1 3) (m 2 1) (m 2 2) (m 2 3)
      (m 3 1) (m 3 2) (m 3 3)
  - m 0 1 * det3x3 (m 1 0) (m 1 2) (m 1 3) (m 2 0) (m 2 2) (m 2 3)
      (m 3 0) (m 3 2) (m 3 3)
  + m 0 2 * det3x3 (m 1 0) (m 1 1) (m 1 3) (m 2 0) (m 2 1) (m 2 3)
      (m 3 0) (m 3 1) (m 3 3)
  - m 0 3 * det3x3 (m 1 0) (m 1 1) (m 1 2) (m 2 0) (m 2 1) (m 2 2)
      (m 3 0) (m 3 1) (m 3 2)

/-- Cramer solution of the 4x4 normal equations (exact-rational OLS).  The
design is nonsingular whenever the sample-size guard passes; a singular
system would yield the zero vector here where `statsmodels` falls back to a
pseudoinverse, and no verified property depends on the coefficient values. -/
def solve4 (m : Fin 4 → Fin 4 → ℚ) (b : Fin 4 → ℚ) (k : Fin 4) : ℚ :=
  det4x4 (fun i j => if j = k then b i else m i j) / det4x4 m

/-- Embedding of `_fit_segmented`: `None` when either side of the breakpoint
has fewer than 12 periods, otherwise the OLS slope/level estimates of
`y = b0 + b1*time + b2*post + b3*time_post`. -/
def fitSegmented (df : List (Int × ℚ)) (brk : Int) : Option SegFit :=
  let nPre := (df.filter fun p => p.1 < brk).length
  let nPost := (df.filter fun p => brk ≤ p.1).length
  if nPre < 12 ∨ nPost < 12 then none
  else
    let rs := segData df brk
    let beta := solve4 (normalMat rs) (normalVec rs)
    some { nPre := nPre, nPost := nPost
           slopePre := beta 1, slopeChange := beta 3
           slopePost := beta 1 + beta 3, levelChange := beta 2 }

/-- One result row of `placebo_test` (the fields the claims depend on; the
Mann-Whitney p-value and the HAC p-values are float CDF evaluations of the
modelled statistics). -/
structure PlaceboRow where
  breakDate : Int
  isChatgpt : Bool
  preMedian : ℚ
  postMedian : ℚ
  effectPct : ℚ
  mwU : ℚ
  /-- the `its_*` columns; `none` models the `np.nan` entries emitted when
  `_fit_segmented` returns `None` -/
  seg : Option SegFit
deriving DecidableEq

instance : Inhabited PlaceboRow := ⟨⟨0, false, 0, 0, 0, 0, none⟩⟩

/-- The body of the `placebo_test` loop for one breakpoint: a result row is
appended only when both sides have more than 5 periods
(`if len(pre) > 5 and len(post) > 5`); the percentage median shift is the
literal `0` when the pre-cutover median is not strictly positive. -/
def mkPlaceboRow (df : List (Int × ℚ)) (realBrk brk : Int) : Option PlaceboRow :=
  let pre := preVals df brk
  let post := postVals df brk
  if 5 < pre.length ∧ 5 < post.length then
    let mp := medOr0 pre
    let mq := medOr0 post
    some { breakDate := brk
           isChatgpt := decide (brk = realBrk)
           preMedian := mp
           postMedian := mq
           effectPct := if 0 < mp then (mq - mp) / mp * 100 else 0
           mwU := mannWhitneyU pre post
           seg := fitSegmented df brk }
  else none

/-- `placebo_test`: evaluate the comparator at the real break followed by
each placebo break, collecting the rows that pass the length guard. -/
def placeboTest (df : List (Int × ℚ)) (realBrk : Int) (placebos : List Int) :
    List PlaceboRow :=
  (realBrk :: placebos).filterMap (mkPlaceboRow df realBrk)

/-- The fixed placebo breakpoint list of `placebo_test`, as year-month keys:
2020-03, 2021-01, 2021-06, 2022-01, 2022-10, 2022-12, 2023-01, 2023-06. -/
def defaultPlacebos : List Int :=
  [12 * 2020 + 2, 12 * 2021, 12 * 2021 + 5, 12 * 2022, 12 * 2022 + 9,
   12 * 2022 + 11, 12 * 2023, 12 * 2023 + 5]

/-- `CHATGPT_BREAK` (2022-11-01) as a year-month key. -/
def realBreakKey : Int := 12 * 2022 + 10

/-- The placebo table `run_robustness` computes for one series. -/
def robustnessRes (df : List (Int × ℚ)) : List PlaceboRow :=
  placeboTest df realBreakKey defaultPlacebos

/-- `placebo_results[placebo_results['is_chatgpt']].iloc[0]`: the first row
flagged as the real cutover (the code raises when there is none; that
situation is outside every verified property). -/
def chatRowOf (res : List PlaceboRow) : Option PlaceboRow :=
  res.find? (·.isChatgpt)

/-- The placebo rows' median-shift effects (always present in a row). -/
def placeboEffects (res : List PlaceboRow) : List ℚ :=
  (res.filter fun r => !r.isChatgpt).map (·.effectPct)

/-- The placebo rows' ITS slope changes, skipping the missing ones (pandas
`max` is `skipna`). -/
def placeboSlopes (res : List PlaceboRow) : List ℚ :=
  (res.filter fun r => !r.isChatgpt).filterMap fun r =>
    r.seg.map (·.slopeChange)

/-- `chatgpt_strongest = bool(chatgpt_effect > max_placebo)`: comparisons
against the `NaN` produced by an empty or missing side are `False`, modelled
by the `none` fallthrough. -/
def chatgptMedianStrongest (res : List PlaceboRow) : Bool :=
  match chatRowOf res, (placeboEffects res).max? with
  | some c, some m => decide (m < c.effectPct)
  | _, _ => false

/-- `chatgpt_slope_strongest = bool(isfinite(chat) and isfinite(max) and
chat > max)`. -/
def chatgptSlopeStrongest (res : List PlaceboRow) : Bool :=
  match (chatRowOf res).bind (fun c => c.seg.map (·.slopeChange)),
      (placeboSlopes res).max? with
  | some a, some b => decide (b < a)
  | _, _ => false

/-!
Helper lemmas.
-/

/-- The chunks of a row stream concatenate back to the stream. -/
theorem chunksOfAux_flatten (n : Nat) :
    ∀ (fuel : Nat) (l : List Row), l.length ≤ fuel →
      (chunksOfAux n fuel l).flatten = l := by
  intro fuel
  induction fuel with
  | zero =>
    intro l hl
    have : l = [] := List.length_eq_zero.1 (Nat.le_zero.1 hl)
    subst this
    rfl
  | succ fuel ih =>
    intro l hl
    cases l with
    | nil => rfl
    | cons x xs =>
      rw [chunksOfAux, List.flatten_cons, ih _ (by simp at hl ⊢; omega),
        List.take_append_drop]

/-- The chunks of a row stream concatenate back to the stream. -/
theorem chunksOf_flatten (n : Nat) (l : List Row) : (chunksOf n l).flatten = l :=
  chunksOfAux_flatten n l.length l le_rfl

/-- Folding the chunk loop over a chunk list is folding the row update over
the concatenated rows. -/
theorem foldl_processChunk_flatten (cs : List (List Row)) (s : AggState) :
    cs.foldl processChunk s = cs.flatten.foldl processRow s := by
  induction cs generalizing s with
  | nil => rfl
  | cons c cs ih => rw [List.foldl_cons, List.flatten_cons, List.foldl_append, ih]; rfl

/-- The state after the chunked pass only depends on the row stream. -/
theorem aggOf_eq_foldl (rows : List Row) (n : Nat) :
    aggOf rows n = rows.foldl processRow initState := by
  rw [aggOf, computeAgg, foldl_processChunk_flatten, chunksOf_flatten]

theorem headI_mem_of_ne_nil {α : Type} [Inhabited α] {l : List α} (h : l ≠ []) :
    l.headI ∈ l := by
  cases l with
  | nil => exact absurd rfl h
  | cons x xs => simp [List.headI]

theorem init_le_foldl_max {α : Type} [LinearOrder α] (xs : List α) (a : α) :
    a ≤ xs.foldl max a := by
  induction xs generalizing a with
  | nil => exact le_refl a
  | cons x xs ih => exact le_trans (le_max_left a x) (ih (max a x))

theorem mem_le_foldl_max {α : Type} [LinearOrder α] {xs : List α} {x : α} (a : α)
    (hx : x ∈ xs) : x ≤ xs.foldl max a := by
  induction xs generalizing a with
  | nil => exact absurd hx (List.not_mem_nil x)
  | cons y ys ih =>
    rcases List.mem_cons.1 hx with rfl | h
    · exact le_trans (le_max_right a x) (init_le_foldl_max ys (max a x))
    · exact ih (max a y) h

theorem foldl_max_mem {α : Type} [LinearOrder α] (xs : List α) (a : α) :
    xs.foldl max a = a ∨ xs.foldl max a ∈ xs := by
  induction xs generalizing a with
  | nil => exact Or.inl rfl
  | cons x xs ih =>
    rcases ih (max a x) with h | h
    · rcases max_choice a x with hm | hm
      · exact Or.inl (by rw [List.foldl_cons, h, hm])
      · exact Or.inr (by rw [List.foldl_cons, h, hm]; exact List.mem_cons_self x xs)
    · exact Or.inr (List.mem_cons_of_mem x h)

theorem max?_spec {α : Type} [LinearOrder α] {l : List α} {m : α}
    (h : l.max? = some m) : m ∈ l ∧ ∀ x ∈ l, x ≤ m := by
  cases l with
  | nil => exact absurd h (by simp [List.max?])
  | cons x xs =>
    have hm : m = xs.foldl max x := by
      have : (x :: xs).max? = some (xs.foldl max x) := rfl
      rw [this] at h
      exact (Option.some.inj h).symm
    subst hm
    constructor
    · rcases foldl_max_mem xs x with h' | h'
      · rw [h']; exact List.mem_cons_self x xs
      · exact List.mem_cons_of_mem x h'
    · intro y hy
      rcases List.mem_cons.1 hy with rfl | h'
      · exact init_le_foldl_max xs y
      · exact mem_le_foldl_max x h'

theorem max?_isSome_of_ne_nil {α : Type} [LinearOrder α] {l : List α}
    (h : l ≠ []) : ∃ m, l.max? = some m := by
  cases l with
  | nil => exact absurd rfl h
  | cons x xs => exact ⟨xs.foldl max x, rfl⟩

/-- Incrementing both the total-row and the dropped-row counters: the entire
effect of a dropped row on the accumulator state. -/
def bumpTD (s : AggState) : AggState :=
  { s with totalRows := s.totalRows + 1, droppedRows := s.droppedRows + 1 }

theorem processRow_invalid {r : Row} (h : validRow r = false) (s : AggState) :
    processRow s r = bumpTD s := by
  obtain ⟨ts, a, tid, lg⟩ := r
  simp only [validRow] at h
  cases ts <;> cases a <;> cases tid <;> first
    | rfl
    | simp at h

theorem processRow_bumpTD (s : AggState) (r : Row) :
    processRow (bumpTD s) r = bumpTD (processRow s r) := by
  obtain ⟨ts, a, tid, lg⟩ := r
  cases ts <;> cases a <;> cases tid <;> rfl

theorem foldl_processRow_bumpTD (rows : List Row) (s : AggState) :
    rows.foldl processRow (bumpTD s) = bumpTD (rows.foldl processRow s) := by
  induction rows generalizing s with
  | nil => rfl
  | cons r rows ih => rw [List.foldl_cons, List.foldl_cons, processRow_bumpTD, ih]

/-- Inserting one dropped row anywhere in the stream only bumps the two
counters of the final accumulator state. -/
theorem aggOf_insert_invalid (pre post : List Row) {r : Row}
    (h : validRow r = false) (n : Nat) :
    aggOf (pre ++ r :: post) n = bumpTD (aggOf (pre ++ post) n) := by
  rw [aggOf_eq_foldl, aggOf_eq_foldl, List.foldl_append, List.foldl_append,
    List.foldl_cons, processRow_invalid h, foldl_processRow_bumpTD]

theorem map_insertSorted {α β : Type} (g : α → β) (le : α → α → Bool)
    (le' : β → β → Bool) (hfac : ∀ x y, le x y = le' (g x) (g y)) (a : α)
    (l : List α) :
    (insertSorted le a l).map g = insertSorted le' (g a) (l.map g) := by
  induction l with
  | nil => rfl
  | cons x xs ih =>
    rw [insertSorted, List.map_cons, insertSorted, ← hfac]
    by_cases h : le x a = true
    · rw [if_pos h, if_pos h, List.map_cons, ih]
    · rw [if_neg h, if_neg h]
      rfl

theorem map_insertionSort {α β : Type} (g : α → β) (le : α → α → Bool)
    (le' : β → β → Bool) (hfac : ∀ x y, le x y = le' (g x) (g y))
    (l : List α) :
    (insertionSort le l).map g = insertionSort le' (l.map g) := by
  suffices h : ∀ acc : List α,
      (l.foldl (fun acc x => insertSorted le x acc) acc).map g =
        (l.map g).foldl (fun acc y => insertSorted le' y acc) (acc.map g) by
    exact h []
  induction l with
  | nil => intro acc; rfl
  | cons x xs ih =>
    intro acc
    rw [List.foldl_cons, List.map_cons, List.foldl_cons, ih,
      map_insertSorted g le le' hfac]

/-- The share-free part of a language-table row (its key, note tally and
distinct-author count). -/
def langSummary (lr : LangRow) : String × Nat × Nat :=
  (lr.language, lr.notes, lr.uniqueAuthors)

/-- The timestamp a raw row contributes to subject `tid`: present exactly
when the row survives the `dropna` and its subject id is `tid`. -/
def obsVal (r : Row) (tid : Int) : Option Int :=
  match r.ts, r.author, r.tweetId with
  | some ts, some _, some t => if t = tid then some ts else none
  | _, _, _ => none

/-- The timestamps of the retained events on subject `tid` in a row
stream. -/
def obs (rows : List Row) (tid : Int) : List Int :=
  rows.filterMap fun r => obsVal r tid

/-- The recorded earliest event time of subject `tid` (`none` when the
subject has no dictionary entry yet). -/
def subjMin (s : AggState) (tid : Int) : Option Int :=
  if tid ∈ s.tweets then some (s.earliest tid) else none

/-- The keep-the-earlier merge on optional timestamps. -/
def omin : Option Int → Option Int → Option Int
  | none, o => o
  | some a, none => some a
  | some a, some b => some (min a b)

theorem omin_none_right (x : Option Int) : omin x none = x := by
  cases x <;> rfl

theorem mem_recordKey {α : Type} [DecidableEq α] (ks : List α) (a x : α) :
    x ∈ recordKey ks a ↔ x ∈ ks ∨ x = a := by
  unfold recordKey
  by_cases h : a ∈ ks
  · rw [if_pos h]
    constructor
    · exact Or.inl
    · rintro (hx | rfl)
      · exact hx
      · exact h
  · rw [if_neg h]
    simp [List.mem_append]

theorem subjMin_processRow (s : AggState) (r : Row) (tid : Int) :
    subjMin (processRow s r) tid = omin (subjMin s tid) (obsVal r tid) := by
  obtain ⟨ts, a, t, lg⟩ := r
  cases ts <;> cases a <;> cases t <;> simp only [obsVal] <;>
    first
    | (rw [omin_none_right]; rfl)
    | skip
  case some.some.some ts a t =>
    by_cases ht : t = tid
    · subst ht
      by_cases hmem : t ∈ s.tweets <;>
        simp [subjMin, omin, processRow, processValid, mem_recordKey, hmem]
    · have ht' : ¬(tid = t) := fun hh => ht hh.symm
      rw [if_neg ht, omin_none_right]
      by_cases hmem : tid ∈ s.tweets <;>
        simp [subjMin, processRow, processValid, mem_recordKey, hmem, ht, ht']

theorem obs_cons (r : Row) (rows : List Row) (tid : Int) :
    obs (r :: rows) tid =
      match obsVal r tid with
      | none => obs rows tid
      | some v => v :: obs rows tid := by
  unfold obs
  rw [List.filterMap_cons]
  cases obsVal r tid <;> rfl

theorem subjMin_foldl (rows : List Row) (s : AggState) (tid : Int) :
    subjMin (rows.foldl processRow s) tid =
      (obs rows tid).foldl (fun o v => omin o (some v)) (subjMin s tid) := by
  induction rows generalizing s with
  | nil => rfl
  | cons r rows ih =>
    rw [List.foldl_cons, ih, obs_cons]
    cases hv : obsVal r tid with
    | none => rw [subjMin_processRow, hv, omin_none_right]
    | some v => rw [List.foldl_cons, subjMin_processRow, hv]

theorem foldl_omin_some (l : List Int) (a : Int) :
    l.foldl (fun o v => omin o (some v)) (some a) = some (l.foldl min a) := by
  induction l generalizing a with
  | nil => rfl
  | cons x xs ih =>
    rw [List.foldl_cons, List.foldl_cons]
    exact ih (min a x)

theorem foldl_omin_none_cons (x : Int) (xs : List Int) :
    (x :: xs).foldl (fun o v => omin o (some v)) none =
      some (xs.foldl min x) := by
  rw [List.foldl_cons]
  exact foldl_omin_some xs x

theorem foldl_min_le_init {α : Type} [LinearOrder α] (xs : List α) (a : α) :
    xs.foldl min a ≤ a := by
  induction xs generalizing a with
  | nil => exact le_refl a
  | cons x xs ih => exact le_trans (ih (min a x)) (min_le_left a x)

theorem foldl_min_le_mem {α : Type} [LinearOrder α] {xs : List α} {x : α}
    (a : α) (hx : x ∈ xs) : xs.foldl min a ≤ x := by
  induction xs generalizing a with
  | nil => exact absurd hx (List.not_mem_nil x)
  | cons y ys ih =>
    rcases List.mem_cons.1 hx with rfl | h
    · exact le_trans (foldl_min_le_init ys (min a x)) (min_le_right a x)
    · exact ih (min a y) h

theorem foldl_min_mem {α : Type} [LinearOrder α] (xs : List α) (a : α) :
    xs.foldl min a = a ∨ xs.foldl min a ∈ xs := by
  induction xs generalizing a with
  | nil => exact Or.inl rfl
  | cons x xs ih =>
    rcases ih (min a x) with h | h
    · rcases min_choice a x with hm | hm
      · exact Or.inl (by rw [List.foldl_cons, h, hm])
      · exact Or.inr (by rw [List.foldl_cons, h, hm]; exact List.mem_cons_self x xs)
    · exact Or.inr (List.mem_cons_of_mem x h)

theorem foldl_min_mem_cons {α : Type} [LinearOrder α] (xs : List α) (x : α) :
    xs.foldl min x ∈ x :: xs := by
  rcases foldl_min_mem xs x with h | h
  · rw [h]
    exact List.mem_cons_self x xs
  · exact List.mem_cons_of_mem x h

theorem foldl_min_le_all {α : Type} [LinearOrder α] (xs : List α) (x : α) :
    ∀ z ∈ x :: xs, xs.foldl min x ≤ z := by
  intro z hz
  rcases List.mem_cons.1 hz with rfl | hz
  · exact foldl_min_le_init xs z
  · exact foldl_min_le_mem x hz

theorem foldl_omin_perm {l₁ l₂ : List Int} (h : l₁.Perm l₂) :
    l₁.foldl (fun o v => omin o (some v)) none =
      l₂.foldl (fun o v => omin o (some v)) none := by
  cases l₁ with
  | nil =>
    have : l₂ = [] := List.perm_nil.1 h.symm
    subst this
    rfl
  | cons x xs =>
    cases l₂ with
    | nil => exact absurd (List.perm_nil.1 h) (by simp)
    | cons y ys =>
      rw [foldl_omin_none_cons, foldl_omin_none_cons]
      congr 1
      apply le_antisymm
      · exact foldl_min_le_all xs x _ (h.mem_iff.2 (foldl_min_mem_cons ys y))
      · exact foldl_min_le_all ys y _ (h.mem_iff.1 (foldl_min_mem_cons xs x))

theorem subjMin_computeAgg (cs : List (List Row)) (tid : Int) :
    subjMin (computeAgg cs) tid =
      (obs cs.flatten tid).foldl (fun o v => omin o (some v)) none := by
  rw [computeAgg, foldl_processChunk_flatten, subjMin_foldl]
  rfl

/-!
Claim theorems.
-/

/-- Concrete malformed row (missing actor id) for the C1 counterexample. -/
def badRowC1 : Row := ⟨some 1650000000000, none, some 5, some "en"⟩

/-- C1 counterexample: a single dropped row (missing actor id) is counted
once in `dropped_rows`, but — contrary to the claim — it does contribute to
the global `total_notes` (the reported total-event count, which is also the
denominator of every language share): ingesting just that row yields
`total_notes = 1`, while ingesting nothing yields `total_notes = 0`. -/
theorem claim_C1_counterexample :
    validRow badRowC1 = false ∧
    (computeMonthlyMetrics [badRowC1] 7).totals.droppedRows = 1 ∧
    (computeMonthlyMetrics [badRowC1] 7).totals.totalNotes = 1 ∧
    (computeMonthlyMetrics [] 7).totals.totalNotes = 0 := by
  decide

/-- C1 (amended): a row whose combined timestamp fails to parse or whose
actor or subject id is missing is dropped and counted exactly once in the
dropped total; it contributes to no monthly aggregate, no actor set, no
per-language tally or author set, and no per-subject minimum — but it is
counted in the raw `total_notes` total (and hence in the denominator of the
language shares), which counts every ingested row, dropped or not. -/
theorem claim_C1_dropped_rows (pre post : List Row) (r : Row) (n : Nat)
    (h : validRow r = false) :
    (computeMonthlyMetrics (pre ++ r :: post) n).monthly =
      (computeMonthlyMetrics (pre ++ post) n).monthly ∧
    (computeMonthlyMetrics (pre ++ r :: post) n).totals.droppedRows =
      (computeMonthlyMetrics (pre ++ post) n).totals.droppedRows + 1 ∧
    (computeMonthlyMetrics (pre ++ r :: post) n).totals.totalNotes =
      (computeMonthlyMetrics (pre ++ post) n).totals.totalNotes + 1 ∧
    (computeMonthlyMetrics (pre ++ r :: post) n).totals.totalContributors =
      (computeMonthlyMetrics (pre ++ post) n).totals.totalContributors ∧
    (computeMonthlyMetrics (pre ++ r :: post) n).totals.totalDistinctPosts =
      (computeMonthlyMetrics (pre ++ post) n).totals.totalDistinctPosts ∧
    (computeMonthlyMetrics (pre ++ r :: post) n).langTable.map langSummary =
      (computeMonthlyMetrics (pre ++ post) n).langTable.map langSummary := by
  have hagg := aggOf_insert_invalid pre post h n
  unfold computeMonthlyMetrics
  rw [hagg]
  refine ⟨rfl, rfl, rfl, rfl, rfl, ?_⟩
  show ((langTableOf (bumpTD (aggOf (pre ++ post) n))).map langSummary) =
    ((langTableOf (aggOf (pre ++ post) n)).map langSummary)
  unfold langTableOf
  rw [map_insertionSort langSummary (fun a b => decide (b.notes ≤ a.notes))
      (fun a b => decide (b.2.1 ≤ a.2.1)) (fun x y => rfl),
    map_insertionSort langSummary (fun a b => decide (b.notes ≤ a.notes))
      (fun a b => decide (b.2.1 ≤ a.2.1)) (fun x y => rfl)]
  simp only [langRowsRaw, List.map_map]
  rfl

/-- Concrete well-formed rows surrounding the dropped row for the C1
witness. -/
def preC1 : List Row := [⟨some 1650000000000, some "a", some 5, some "en"⟩]

/-- Concrete well-formed rows surrounding the dropped row for the C1
witness. -/
def postC1 : List Row := [⟨some 1650003600000, some "b", some 6, none⟩]

/-- C1 witness: the amended dropped-row accounting at a concrete stream of
two well-formed rows with a malformed row between them. -/
theorem claim_C1_witness :
    validRow badRowC1 = false ∧
    (computeMonthlyMetrics (preC1 ++ badRowC1 :: postC1) 2).monthly =
      (computeMonthlyMetrics (preC1 ++ postC1) 2).monthly ∧
    (computeMonthlyMetrics (preC1 ++ badRowC1 :: postC1) 2).totals.droppedRows =
      (computeMonthlyMetrics (preC1 ++ postC1) 2).totals.droppedRows + 1 ∧
    (computeMonthlyMetrics (preC1 ++ badRowC1 :: postC1) 2).totals.totalNotes =
      (computeMonthlyMetrics (preC1 ++ postC1) 2).totals.totalNotes + 1 ∧
    (computeMonthlyMetrics (preC1 ++ badRowC1 :: postC1) 2).langTable.map
        langSummary =
      (computeMonthlyMetrics (preC1 ++ postC1) 2).langTable.map langSummary := by
  have h := claim_C1_dropped_rows preC1 postC1 badRowC1 2 (by decide)
  exact ⟨by decide, h.1, h.2.1, h.2.2.1, h.2.2.2.2.2⟩

/-- C2: for every event source and every two chunk sizes, the streaming
aggregator produces identical outputs: the same ordered-by-month monthly
table (counts, distinct-actor counts, events-per-actor, monthly medians),
the same global totals (total events, distinct actors, distinct subjects,
dropped count) and the same language table. -/
theorem claim_C2_chunk_invariance (rows : List Row) (n₁ n₂ : Nat) :
    computeMonthlyMetrics rows n₁ = computeMonthlyMetrics rows n₂ := by
  unfold computeMonthlyMetrics
  rw [aggOf_eq_foldl, aggOf_eq_foldl]

/-- C3: decoding an identifier constructed as
`(creation_ms - epoch) <<< 22`, whenever it fits in an unsigned 64-bit
integer, recovers `creation_ms` exactly; and the uint64 reinterpretation
makes the shift sign-extension-free (an id stored as the wrapped-around
negative int64 decodes identically). -/
theorem claim_C3_snowflake_roundtrip (cms : Int)
    (h1 : TWITTER_EPOCH_MS ≤ cms)
    (h2 : (cms - TWITTER_EPOCH_MS) * 2 ^ 22 < 2 ^ 64) :
    tweetIdToTimestampMs ((cms - TWITTER_EPOCH_MS) * 2 ^ 22) = cms ∧
    (∀ x : Int, tweetIdToTimestampMs (x - 2 ^ 64) = tweetIdToTimestampMs x) := by
  have e22 : (2 : Int) ^ 22 = 4194304 := by norm_num
  have e63 : (2 : Int) ^ 63 = 9223372036854775808 := by norm_num
  have e64 : (2 : Int) ^ 64 = 18446744073709551616 := by norm_num
  constructor
  · simp only [tweetIdToTimestampMs, asInt64, toUInt64Val, TWITTER_EPOCH_MS] at *
    rw [e22, e64] at *
    rw [e63]
    split_ifs with h <;> omega
  · intro x
    simp only [tweetIdToTimestampMs, toUInt64Val]
    rw [e64]
    have : (x - 18446744073709551616) % 18446744073709551616 =
        x % 18446744073709551616 := by omega
    rw [this]

/-- C3 witness: the roundtrip at the concrete creation timestamp
1650000000000 (an in-range millisecond instant). -/
theorem claim_C3_witness :
    TWITTER_EPOCH_MS ≤ (1650000000000 : Int) ∧
    ((1650000000000 : Int) - TWITTER_EPOCH_MS) * 2 ^ 22 < 2 ^ 64 ∧
    tweetIdToTimestampMs (((1650000000000 : Int) - TWITTER_EPOCH_MS) * 2 ^ 22) =
      1650000000000 := by
  refine ⟨by decide, by decide, ?_⟩
  exact (claim_C3_snowflake_roundtrip 1650000000000 (by decide) (by decide)).1

/-- C4: the per-subject earliest-event time is monotonically non-increasing
under processing further chunks (a recorded subject stays recorded and its
value can only move earlier); the final recorded value is invariant under
any permutation of the same chunks; and it is characterized as the global
minimum event timestamp over all retained events of that subject. -/
theorem claim_C4_earliest_min :
    (∀ (s : AggState) (c : List Row) (tid a : Int),
      subjMin s tid = some a →
      ∃ b, subjMin (processChunk s c) tid = some b ∧ b ≤ a) ∧
    (∀ cs cs' : List (List Row), cs.Perm cs' → ∀ tid : Int,
      subjMin (computeAgg cs) tid = subjMin (computeAgg cs') tid) ∧
    (∀ (cs : List (List Row)) (tid a : Int),
      subjMin (computeAgg cs) tid = some a ↔
        a ∈ obs cs.flatten tid ∧ ∀ v ∈ obs cs.flatten tid, a ≤ v) := by
  refine ⟨?_, ?_, ?_⟩
  · intro s c tid a ha
    rw [processChunk, subjMin_foldl, ha, foldl_omin_some]
    exact ⟨_, rfl, foldl_min_le_init _ _⟩
  · intro cs cs' h tid
    rw [subjMin_computeAgg, subjMin_computeAgg]
    exact foldl_omin_perm (List.Perm.filterMap _ h.flatten)
  · intro cs tid a
    rw [subjMin_computeAgg]
    cases hobs : obs cs.flatten tid with
    | nil => simp
    | cons x xs =>
      rw [foldl_omin_none_cons]
      constructor
      · intro h
        have h' := Option.some.inj h
        subst h'
        exact ⟨foldl_min_mem_cons xs x, foldl_min_le_all xs x⟩
      · rintro ⟨hmem, hlb⟩
        congr 1
        exact le_antisymm (foldl_min_le_all xs x a hmem)
          (hlb _ (foldl_min_mem_cons xs x))

/-- First event row on subject 5 for the C4 witness. -/
def rowC4a : Row := ⟨some 1650000000000, some "a", some 5, none⟩

/-- Second, earlier event row on subject 5 for the C4 witness. -/
def rowC4b : Row := ⟨some 1640000000000, some "b", some 5, none⟩

/-- C4 witness: monotone update, permutation invariance and the global-min
characterization at a concrete two-chunk stream on subject 5. -/
theorem claim_C4_witness :
    subjMin (aggOf [rowC4a] 1) 5 = some 1650000000000 ∧
    (∃ b, subjMin (processChunk (aggOf [rowC4a] 1) [rowC4b]) 5 = some b ∧
      b ≤ 1650000000000) ∧
    subjMin (computeAgg [[rowC4a], [rowC4b]]) 5 =
      subjMin (computeAgg [[rowC4b], [rowC4a]]) 5 ∧
    ((1640000000000 : Int) ∈ obs ([[rowC4a], [rowC4b]] : List (List Row)).flatten 5 ∧
      ∀ v ∈ obs ([[rowC4a], [rowC4b]] : List (List Row)).flatten 5,
        (1640000000000 : Int) ≤ v) := by
  refine ⟨by decide, ?_, ?_, ?_⟩
  · exact claim_C4_earliest_min.1 (aggOf [rowC4a] 1) [rowC4b] 5 1650000000000
      (by decide)
  · exact claim_C4_earliest_min.2.1 [[rowC4a], [rowC4b]] [[rowC4b], [rowC4a]]
      (by decide) 5
  · exact (claim_C4_earliest_min.2.2 [[rowC4a], [rowC4b]] 5 1640000000000).1
      (by decide)

/-- C5: for every month in the final monthly table, a zero distinct-actor
count yields an explicitly-missing events-per-actor value (not zero, not an
error), and otherwise events-per-actor equals the event count divided by the
distinct-actor count. -/
theorem claim_C5_events_per_actor (rows : List Row) (n : Nat)
    (mrow : MonthlyRow) (hm : mrow ∈ (computeMonthlyMetrics rows n).monthly) :
    (mrow.activeAuthors = 0 → mrow.notesPerAuthor = none) ∧
    (mrow.activeAuthors ≠ 0 →
      mrow.notesPerAuthor = some ((mrow.notes : ℚ) / (mrow.activeAuthors : ℚ))) := by
  obtain ⟨m, hmem, rfl⟩ := List.mem_map.1 hm
  constructor
  · intro h
    simp only [mkMonthlyRow] at h ⊢
    simp [h]
  · intro h
    simp only [mkMonthlyRow] at h ⊢
    simp [h]

/-- Concrete single-row input for the C5 witness. -/
def rowsC5 : List Row := [⟨some 1650000000000, some "a", some 5, some "en"⟩]

/-- C5 witness: the dichotomy at the first row of the monthly table computed
from a concrete input. -/
theorem claim_C5_witness :
    (computeMonthlyMetrics rowsC5 2).monthly.headI ∈
      (computeMonthlyMetrics rowsC5 2).monthly ∧
    (((computeMonthlyMetrics rowsC5 2).monthly.headI.activeAuthors = 0 →
        (computeMonthlyMetrics rowsC5 2).monthly.headI.notesPerAuthor = none) ∧
      ((computeMonthlyMetrics rowsC5 2).monthly.headI.activeAuthors ≠ 0 →
        (computeMonthlyMetrics rowsC5 2).monthly.headI.notesPerAuthor =
          some (((computeMonthlyMetrics rowsC5 2).monthly.headI.notes : ℚ) /
            ((computeMonthlyMetrics rowsC5 2).monthly.headI.activeAuthors : ℚ)))) := by
  have h : (computeMonthlyMetrics rowsC5 2).monthly ≠ [] := by decide
  exact ⟨headI_mem_of_ne_nil h,
    claim_C5_events_per_actor rowsC5 2 _ (headI_mem_of_ne_nil h)⟩

/-- C10: for every breakpoint evaluated with at least six periods on each
side, a pre-cutover median that is not strictly positive yields the literal
number 0 as the reported percentage median shift, rather than a missing
value or an error. -/
theorem claim_C10_zero_effect (df : List (Int × ℚ)) (realBrk brk : Int)
    (h5a : 5 < (preVals df brk).length) (h5b : 5 < (postVals df brk).length)
    (hmed : medOr0 (preVals df brk) ≤ 0) :
    (mkPlaceboRow df realBrk brk).map PlaceboRow.effectPct = some 0 := by
  unfold mkPlaceboRow
  rw [if_pos ⟨h5a, h5b⟩]
  simp [not_lt.2 hmed]

/-- Concrete series for the C10 witness: seven zero-valued periods before
the real cutover, six after. -/
def dfC10 : List (Int × ℚ) :=
  [(24259, 0), (24260, 0), (24261, 0), (24262, 0), (24263, 0), (24264, 0),
   (24265, 0), (24275, 1), (24276, 2), (24277, 3), (24278, 4), (24279, 5),
   (24280, 6)]

/-- C10 witness: the zero pre-median at the real cutover of `dfC10` yields a
literal-zero effect. -/
theorem claim_C10_witness :
    medOr0 (preVals dfC10 realBreakKey) ≤ 0 ∧
    (mkPlaceboRow dfC10 realBreakKey realBreakKey).map PlaceboRow.effectPct =
      some 0 := by
  have hmed : medOr0 (preVals dfC10 realBreakKey) ≤ 0 := by decide
  exact ⟨hmed,
    claim_C10_zero_effect dfC10 realBreakKey realBreakKey (by decide) (by decide) hmed⟩

theorem preVals_length (df : List (Int × ℚ)) (brk : Int) :
    (preVals df brk).length = (df.filter fun p => p.1 < brk).length := by
  simp [preVals, prePart]

theorem postVals_length (df : List (Int × ℚ)) (brk : Int) :
    (postVals df brk).length = (df.filter fun p => brk ≤ p.1).length := by
  simp [postVals, postPart]

/-- Series with exactly two periods before the real cutover and ten after:
the claimed at-least-two-per-side threshold for the rank test is met, yet
`placebo_test` emits nothing for it. -/
def dfC8 : List (Int × ℚ) :=
  [(24260, 1), (24261, 2), (24275, 1), (24276, 2), (24277, 3), (24278, 4),
   (24279, 5), (24280, 6), (24281, 7), (24282, 8), (24283, 9), (24284, 10)]

/-- C8 counterexample: with two periods before the cutover and ten after —
at least two on each side, so the claim asserts the rank test is computed
and reported — `placebo_test` emits no row at all for the date (its guard
requires more than five periods on each side), hence neither a rank
statistic nor an explicitly-missing entry. -/
theorem claim_C8_counterexample :
    2 ≤ (preVals dfC8 realBreakKey).length ∧
    2 ≤ (postVals dfC8 realBreakKey).length ∧
    placeboTest dfC8 realBreakKey [] = [] := by
  decide

/-- C8 (amended): `placebo_test` emits a row for a breakpoint exactly when
more than five periods fall on each side; below that threshold the date is
omitted from its output entirely (no spurious statistic, and no
explicitly-missing entry either).  In an emitted row the rank statistic is
computed; the regression additionally requires at least 12 periods per
side, below which the row's regression fields are explicitly missing rather
than raising, and with 12 or more per side the regression is present. -/
theorem claim_C8_guards (df : List (Int × ℚ)) (realBrk brk : Int) :
    ((preVals df brk).length ≤ 5 ∨ (postVals df brk).length ≤ 5 →
      mkPlaceboRow df realBrk brk = none) ∧
    (5 < (preVals df brk).length → 5 < (postVals df brk).length →
      ∃ r, mkPlaceboRow df realBrk brk = some r ∧
        r.mwU = mannWhitneyU (preVals df brk) (postVals df brk) ∧
        r.preMedian = medOr0 (preVals df brk) ∧
        ((preVals df brk).length < 12 ∨ (postVals df brk).length < 12 →
          r.seg = none) ∧
        (12 ≤ (preVals df brk).length → 12 ≤ (postVals df brk).length →
          r.seg.isSome = true)) := by
  constructor
  · intro h
    unfold mkPlaceboRow
    rw [if_neg]
    rintro ⟨h1, h2⟩
    rcases h with h | h
    · omega
    · omega
  · intro h1 h2
    unfold mkPlaceboRow
    rw [if_pos ⟨h1, h2⟩]
    refine ⟨_, rfl, rfl, rfl, ?_, ?_⟩
    · intro hlt
      show fitSegmented df brk = none
      rw [preVals_length, postVals_length] at hlt
      simp only [fitSegmented]
      rw [if_pos hlt]
    · intro h12a h12b
      show (fitSegmented df brk).isSome = true
      rw [preVals_length] at h12a
      rw [postVals_length] at h12b
      simp only [fitSegmented]
      rw [if_neg (by omega)]
      rfl

/-- Series with six periods on each side of the real cutover (rank test
emitted, regression missing). -/
def dfC8b : List (Int × ℚ) :=
  [(24260, 1), (24261, 2), (24262, 3), (24263, 4), (24264, 5), (24265, 6),
   (24275, 1), (24276, 2), (24277, 3), (24278, 4), (24279, 5), (24280, 6)]

/-- Series with twelve periods on each side of the real cutover (regression
present). -/
def dfC8c : List (Int × ℚ) :=
  [(24262, 1), (24263, 2), (24264, 3), (24265, 4), (24266, 5), (24267, 6),
   (24268, 7), (24269, 8), (24270, 9), (24271, 10), (24272, 11), (24273, 12),
   (24274, 1), (24275, 2), (24276, 3), (24277, 4), (24278, 5), (24279, 6),
   (24280, 7), (24281, 8), (24282, 9), (24283, 10), (24284, 11), (24285, 12)]

/-- C8 witness: all three regimes at concrete series — two periods on one
side (row omitted), six per side (row emitted, regression missing), twelve
per side (row emitted, regression present). -/
theorem claim_C8_witness :
    mkPlaceboRow dfC8 realBreakKey realBreakKey = none ∧
    (mkPlaceboRow dfC8b realBreakKey realBreakKey).isSome = true ∧
    (mkPlaceboRow dfC8b realBreakKey realBreakKey).bind PlaceboRow.seg = none ∧
    ((mkPlaceboRow dfC8c realBreakKey realBreakKey).bind
      PlaceboRow.seg).isSome = true := by
  obtain ⟨rb, hrb, _, _, hsegnone, _⟩ :=
    (claim_C8_guards dfC8b realBreakKey realBreakKey).2 (by decide) (by decide)
  obtain ⟨rc, hrc, _, _, _, hsegsome⟩ :=
    (claim_C8_guards dfC8c realBreakKey realBreakKey).2 (by decide) (by decide)
  refine ⟨(claim_C8_guards dfC8 realBreakKey realBreakKey).1 (Or.inl (by decide)),
    ?_, ?_, ?_⟩
  · rw [hrb]
    rfl
  · rw [hrb]
    simpa using hsegnone (Or.inl (by decide))
  · rw [hrc]
    simpa using hsegsome (by decide) (by decide)

/-- C6: during finalization of the time-to-first-event metric, every
retained entry has a non-negative delta (negative deltas are excluded; an
unparsable delta cannot arise, the deltas being exact integers scaled to
hours), every subject with a non-negative delta is retained no matter how
large the delta is, and a month of the monthly table with no retained
qualifying subject receives a missing median rather than zero or an
error. -/
theorem claim_C6_ttfn_filtering :
    (∀ (s : AggState) (e : Int × ℚ), e ∈ ttfnRetained s → 0 ≤ e.2) ∧
    (∀ (s : AggState) (tid : Int), tid ∈ tweetsIter s → 0 ≤ deltaHours s tid →
      (monthKey (s.earliest tid), deltaHours s tid) ∈ ttfnRetained s) ∧
    (∀ (rows : List Row) (n : Nat) (mrow : MonthlyRow),
      mrow ∈ (computeMonthlyMetrics rows n).monthly →
      (∀ e ∈ ttfnRetained (aggOf rows n), e.1 ≠ mrow.month) →
      mrow.medianTTFN = none) := by
  refine ⟨?_, ?_, ?_⟩
  · intro s e he
    exact of_decide_eq_true (List.mem_filter.1 he).2
  · intro s tid ht hd
    exact List.mem_filter.2 ⟨List.mem_map_of_mem _ ht, decide_eq_true hd⟩
  · intro rows n mrow hm hnone
    obtain ⟨m, hmem, rfl⟩ := List.mem_map.1 hm
    show monthMedian (aggOf rows n) m = none
    unfold monthMedian
    have hnil : (ttfnRetained (aggOf rows n)).filter (fun e => decide (e.1 = m)) =
        [] :=
      List.filter_eq_nil_iff.2 fun e he => by simpa using hnone e he
    rw [hnil]
    rfl

/-- Event row whose note time is one hour after the decoded creation time
of subject 0 (delta `+1` hour), for the C6 witness. -/
def rowC6 : Row := ⟨some 1288838574657, some "a", some 0, none⟩

/-- Event row whose note time is one hour before the decoded creation time
of subject 0 (delta `-1` hour, excluded), for the C6 witness. -/
def rowC6neg : Row := ⟨some 1288831374657, some "b", some 0, none⟩

/-- C6 witness: a concrete positive delta is retained and non-negative, and
a concrete stream whose only subject has a negative delta yields a missing
monthly median. -/
theorem claim_C6_witness :
    (monthKey ((aggOf [rowC6] 1).earliest 0), deltaHours (aggOf [rowC6] 1) 0) ∈
      ttfnRetained (aggOf [rowC6] 1) ∧
    0 ≤ deltaHours (aggOf [rowC6] 1) 0 ∧
    (computeMonthlyMetrics [rowC6neg] 1).monthly.headI.medianTTFN = none := by
  have hdec : tweetIdToTimestampMs 0 = 1288834974657 := by decide
  have hE : (aggOf [rowC6] 1).earliest 0 = 1288838574657 := by decide
  have hd : 0 ≤ deltaHours (aggOf [rowC6] 1) 0 := by
    simp only [deltaHours, hE, hdec]
    norm_num
  have hmem := claim_C6_ttfn_filtering.2.1 (aggOf [rowC6] 1) 0 (by decide) hd
  have hne : (computeMonthlyMetrics [rowC6neg] 1).monthly ≠ [] := by decide
  have hE2 : (aggOf [rowC6neg] 1).earliest 0 = 1288831374657 := by decide
  have hdelta : deltaHours (aggOf [rowC6neg] 1) 0 = -1 := by
    simp only [deltaHours, hE2, hdec]
    norm_num
  have htw : tweetsIter (aggOf [rowC6neg] 1) = [0] := by decide
  have hret : ttfnRetained (aggOf [rowC6neg] 1) = [] := by
    unfold ttfnRetained
    rw [htw]
    simp [hdelta]
  refine ⟨hmem, hd, ?_⟩
  exact claim_C6_ttfn_filtering.2.2 [rowC6neg] 1 _ (headI_mem_of_ne_nil hne)
    (by rw [hret]; intro e he; exact absurd he (List.not_mem_nil e))

/-- C7: for every series and cutover, the pre/post comparator partitions the
rows into two disjoint, exhaustive sets, the boundary inclusive on the
"after" side: a row strictly before the cutover lands exactly in the
"before" set, a row at or after the cutover exactly in the "after" set. -/
theorem claim_C7_prepost_partition (df : List (Int × ℚ)) (cut : Int) :
    ((prePart df cut).length + (postPart df cut).length = df.length) ∧
    (∀ p ∈ df, (p.1 < cut → p ∈ prePart df cut ∧ p ∉ postPart df cut) ∧
      (cut ≤ p.1 → p ∈ postPart df cut ∧ p ∉ prePart df cut)) ∧
    (∀ p ∈ prePart df cut, p ∈ df ∧ p.1 < cut) ∧
    (∀ p ∈ postPart df cut, p ∈ df ∧ cut ≤ p.1) := by
  refine ⟨?_, ?_, ?_, ?_⟩
  · induction df with
    | nil => simp [prePart, postPart]
    | cons x xs ih =>
      by_cases h : x.1 < cut
      · simp only [prePart, postPart, List.filter_cons] at *
        simp [h, not_le.2 h] at *
        omega
      · simp only [prePart, postPart, List.filter_cons] at *
        simp [h, not_lt.1 h] at *
        omega
  · intro p hp
    constructor
    · intro hlt
      refine ⟨List.mem_filter.2 ⟨hp, by simpa using hlt⟩, fun hmem => ?_⟩
      have := (List.mem_filter.1 hmem).2
      simp at this
      omega
    · intro hge
      refine ⟨List.mem_filter.2 ⟨hp, by simpa using hge⟩, fun hmem => ?_⟩
      have := (List.mem_filter.1 hmem).2
      simp at this
      omega
  · intro p hp
    have := List.mem_filter.1 hp
    exact ⟨this.1, by simpa using this.2⟩
  · intro p hp
    have := List.mem_filter.1 hp
    exact ⟨this.1, by simpa using this.2⟩

/-- C7 witness: the partition behaviour at a concrete two-row series around
the real cutover. -/
theorem claim_C7_witness :
    ((24270, (3 : ℚ)) ∈ prePart [((24270 : Int), (3 : ℚ)), (24280, 4)] realBreakKey ∧
      (24270, (3 : ℚ)) ∉ postPart [((24270 : Int), (3 : ℚ)), (24280, 4)] realBreakKey) ∧
    (prePart [((24270 : Int), (3 : ℚ)), (24280, 4)] realBreakKey).length +
      (postPart [((24270 : Int), (3 : ℚ)), (24280, 4)] realBreakKey).length = 2 := by
  refine ⟨?_, ?_⟩
  · exact ((claim_C7_prepost_partition [((24270 : Int), (3 : ℚ)), (24280, 4)]
      realBreakKey).2.1 (24270, (3 : ℚ)) (by decide)).1 (by decide)
  · exact (claim_C7_prepost_partition [((24270 : Int), (3 : ℚ)), (24280, 4)]
      realBreakKey).1

/-- C9: the robustness checker evaluates the comparator at the real cutover
and at every placebo date of its fixed list (each date with sufficient data
contributes its comparator row to the output), and its two reported
booleans hold exactly when the real cutover's raw median-shift effect,
respectively its regression trend-change coefficient, is strictly the
single largest among all the dates tested. -/
theorem claim_C9_strongest :
    (∀ (df : List (Int × ℚ)) (brk : Int) (r : PlaceboRow),
      brk ∈ realBreakKey :: defaultPlacebos →
      mkPlaceboRow df realBreakKey brk = some r → r ∈ robustnessRes df) ∧
    (∀ (res : List PlaceboRow) (c : PlaceboRow), chatRowOf res = some c →
      (∃ p ∈ res, p.isChatgpt = false) →
      (chatgptMedianStrongest res = true ↔
        ∀ r ∈ res, r.isChatgpt = false → r.effectPct < c.effectPct)) ∧
    (∀ (res : List PlaceboRow) (c : PlaceboRow) (a : ℚ),
      chatRowOf res = some c → c.seg.map SegFit.slopeChange = some a →
      (∃ p ∈ res, p.isChatgpt = false ∧ p.seg.isSome = true) →
      (chatgptSlopeStrongest res = true ↔
        ∀ b ∈ placeboSlopes res, b < a)) := by
  refine ⟨?_, ?_, ?_⟩
  · intro df brk r hb hr
    exact List.mem_filterMap.2 ⟨brk, hb, hr⟩
  · intro res c hc hne
    obtain ⟨p, hpmem, hpfalse⟩ := hne
    have hpe : p.effectPct ∈ placeboEffects res :=
      List.mem_map_of_mem _ (List.mem_filter.2 ⟨hpmem, by simp [hpfalse]⟩)
    obtain ⟨m, hm⟩ := max?_isSome_of_ne_nil (List.ne_nil_of_mem hpe)
    have hspec := max?_spec hm
    unfold chatgptMedianStrongest
    rw [hc, hm]
    constructor
    · intro htrue r hr hrfalse
      have hmc : m < c.effectPct := of_decide_eq_true htrue
      have hre : r.effectPct ∈ placeboEffects res :=
        List.mem_map_of_mem _ (List.mem_filter.2 ⟨hr, by simp [hrfalse]⟩)
      exact lt_of_le_of_lt (hspec.2 _ hre) hmc
    · intro hall
      apply decide_eq_true
      obtain ⟨r, hrmem, hreq⟩ := List.mem_map.1 hspec.1
      have hrf : r.isChatgpt = false := by
        simpa using (List.mem_filter.1 hrmem).2
      rw [← hreq]
      exact hall r (List.mem_filter.1 hrmem).1 hrf
  · intro res c a hc hca hne
    obtain ⟨p, hpmem, hpfalse, hpsome⟩ := hne
    obtain ⟨s, hs⟩ := Option.isSome_iff_exists.1 hpsome
    have hps : s.slopeChange ∈ placeboSlopes res := by
      refine List.mem_filterMap.2 ⟨p, List.mem_filter.2 ⟨hpmem, by simp [hpfalse]⟩, ?_⟩
      rw [hs]
      rfl
    obtain ⟨m, hm⟩ := max?_isSome_of_ne_nil (List.ne_nil_of_mem hps)
    have hspec := max?_spec hm
    unfold chatgptSlopeStrongest
    rw [hc]
    simp only [Option.some_bind]
    rw [hca, hm]
    constructor
    · intro htrue b hb
      have hmc : m < a := of_decide_eq_true htrue
      exact lt_of_le_of_lt (hspec.2 _ hb) hmc
    · intro hall
      apply decide_eq_true
      exact hall m hspec.1

/-- An ITS fit literal for the C9 witness (real cutover, slope change 5). -/
def segC9a : SegFit := ⟨12, 12, 1, 5, 6, 0⟩

/-- An ITS fit literal for the C9 witness (placebo, slope change 2). -/
def segC9b : SegFit := ⟨12, 12, 1, 2, 3, 0⟩

/-- The real-cutover row of the C9 witness table. -/
def rowC9chat : PlaceboRow := ⟨24274, true, 1, 2, 50, 0, some segC9a⟩

/-- The placebo row of the C9 witness table. -/
def rowC9plac : PlaceboRow := ⟨24242, false, 1, 1, 0, 0, some segC9b⟩

/-- The C9 witness table. -/
def resC9 : List PlaceboRow := [rowC9chat, rowC9plac]

/-- Series with six periods on each side of the real cutover, for the C9
coverage witness. -/
def dfC9 : List (Int × ℚ) :=
  [(24266, 2), (24267, 3), (24268, 4), (24269, 5), (24270, 6), (24271, 7),
   (24275, 1), (24276, 2), (24277, 3), (24278, 4), (24279, 5), (24280, 6)]

/-- C9 witness: the real-cutover row of a concrete series lands in the
robustness output, and on a concrete placebo table whose real-cutover
effect and slope change strictly dominate, both booleans are true. -/
theorem claim_C9_witness :
    (mkPlaceboRow dfC9 realBreakKey realBreakKey).getD default ∈
      robustnessRes dfC9 ∧
    chatgptMedianStrongest resC9 = true ∧
    chatgptSlopeStrongest resC9 = true := by
  refine ⟨?_, ?_, ?_⟩
  · have hs : (mkPlaceboRow dfC9 realBreakKey realBreakKey).isSome = true := by
      decide
    obtain ⟨r, hr⟩ := Option.isSome_iff_exists.1 hs
    rw [hr]
    simpa using claim_C9_strongest.1 dfC9 realBreakKey r (by decide) hr
  · exact (claim_C9_strongest.2.1 resC9 rowC9chat (by decide)
      ⟨rowC9plac, by decide, by decide⟩).mpr (by decide)
  · exact (claim_C9_strongest.2.2 resC9 rowC9chat 5 (by decide) (by decide)
      ⟨rowC9plac, by decide, by decide, by decide⟩).mpr (by decide)

end AugDiv
